import Mathlib

set_option maxRecDepth 8000

/-!
Shallow embedding of the esp32-eink Lambda core logic:

* `src/infrastructure/lambda/calendar/index.py` — the bounded payload
  packer inside `handler` (lines 188-256) and the temporal normalization
  inside `fetch_calendar_events` (lines 86-127);
* `src/infrastructure/lambda/weather/index.py` — the nearest-slot
  forecast selection inside `fetch_forecast` (lines 53-108).

Machine-level conventions: Python strings are modelled as Lean `String`
(sequences of Unicode code points, which is what Python's `len`, slicing
and `json.dumps` operate on); `json.dumps` with its default options
(`ensure_ascii=True`, separators `", "` / `": "`, insertion-ordered
dicts) is modelled character by character, so the serialized form is all
ASCII and its character count equals its byte count.  The
`datetime.utcnow().isoformat()` timestamp baked into every payload is
modelled as an explicit string parameter `ts`, fixed during one handler
invocation; `CALENDAR_ID` is the parameter `cid`.
-/

namespace EInk

/-- One hexadecimal digit, lowercase, as produced by Python's `json`
module inside `\uXXXX` escapes. -/
def hexDigit (n : Nat) : Char :=
  if n < 10 then Char.ofNat (48 + n) else Char.ofNat (87 + n)

/-- The six-character escape `\uXXXX` for a code unit `n < 0x10000`. -/
def uEscape (n : Nat) : List Char :=
  ['\\', 'u', hexDigit (n / 4096 % 16), hexDigit (n / 256 % 16),
   hexDigit (n / 16 % 16), hexDigit (n % 16)]

/-- Escaping of a single character exactly as CPython's
`json.dumps` (default `ensure_ascii=True`) does: the two-character
escapes for quote, backslash and the common controls, `\uXXXX` for other
controls and for every non-ASCII character (surrogate pairs above the
BMP), and the character itself for printable ASCII. -/
def escapeChar (c : Char) : List Char :=
  if c = '"' then ['\\', '"']
  else if c = '\\' then ['\\', '\\']
  else if c = '\n' then ['\\', 'n']
  else if c = '\r' then ['\\', 'r']
  else if c = '\t' then ['\\', 't']
  else if c.toNat = 8 then ['\\', 'b']
  else if c.toNat = 12 then ['\\', 'f']
  else if c.toNat < 32 then uEscape c.toNat
  else if c.toNat < 127 then [c]
  else if c.toNat < 65536 then uEscape c.toNat
  else
    uEscape (55296 + (c.toNat - 65536) / 1024) ++
    uEscape (56320 + (c.toNat - 65536) % 1024)

/-- Serialization `json.dumps` of a Python `str`: the escaped body
between quotes. -/
def jsonString (s : String) : String :=
  "\"" ++ String.mk (s.data.map escapeChar).flatten ++ "\""

/-- Serialization `json.dumps` of a Python `bool`. -/
def boolJson (b : Bool) : String :=
  if b then "true" else "false"

/-- One formatted calendar event as built at
`calendar/index.py:119-127`: the dict with keys `title`, `time`, `date`,
`location`, `description`, `all_day`, `multiday`, in insertion order. -/
structure Event where
  title : String
  time : String
  date : String
  location : String
  description : String
  all_day : Bool
  multiday : Bool
deriving DecidableEq, Repr, Inhabited

/-- Serialization `json.dumps` of one formatted event dict (default separators:
`", "` between items, `": "` after keys; keys in insertion order). -/
def eventJson (e : Event) : String :=
  "\x7b\"title\": " ++ jsonString e.title ++
  ", \"time\": " ++ jsonString e.time ++
  ", \"date\": " ++ jsonString e.date ++
  ", \"location\": " ++ jsonString e.location ++
  ", \"description\": " ++ jsonString e.description ++
  ", \"all_day\": " ++ boolJson e.all_day ++
  ", \"multiday\": " ++ boolJson e.multiday ++ "\x7d"

/-- Comma-space joining of already-serialized items, as `json.dumps`
renders the elements of a list (separator `", "`). -/
def joinSep : List String → String
  | [] => ""
  | [x] => x
  | x :: y :: xs => x ++ ", " ++ joinSep (y :: xs)

/-- Serialization `json.dumps` of the payload dict built at `calendar/index.py:191-196`
(and rebuilt with identical shape at lines 211-216 and 249-254): keys
`events`, `count`, `timestamp`, `calendar_id` in insertion order, with
`count` always the length of the serialized `events` list, as it is at
every construction site in the source. -/
def payloadJson (evs : List Event) (ts cid : String) : String :=
  "\x7b\"events\": [" ++ joinSep (evs.map eventJson) ++
  "], \"count\": " ++ Nat.repr evs.length ++
  ", \"timestamp\": " ++ jsonString ts ++
  ", \"calendar_id\": " ++ jsonString cid ++ "\x7d"

/-- Byte count `len(json.dumps(payload))` — the budget measure used by the
packer (all characters are ASCII after escaping, so characters =
bytes). -/
def payloadSize (evs : List Event) (ts cid : String) : Nat :=
  (payloadJson evs ts cid).length

/-- Size of the metadata-only skeleton: the payload with an empty event
list. -/
def skeletonSize (ts cid : String) : Nat :=
  payloadSize [] ts cid

/-- Python slicing `s[:n]` by code points. -/
def takeChars (n : Nat) (s : String) : String :=
  String.mk (s.data.take n)

/-- The shortened degradation variant:
`test_evt['description'] = test_evt['description'][:50]`
(`calendar/index.py:225`). -/
def shortenEvt (e : Event) : Event :=
  { e with description := takeChars 50 e.description }

/-- The stripped degradation variant: `test_evt['description'] = ''`
(`calendar/index.py:234`). -/
def stripEvt (e : Event) : Event :=
  { e with description := "" }

/-- The trimming loop of `handler` (`calendar/index.py:206-247`):
starting from the already-accepted list `acc`, process the remaining
events in order; for each event try the full variant, then (only when
the description is non-empty, Python truthiness of the string) the
shortened and stripped variants, accepting the first trial payload of
size `≤ max`; stop at the first event none of whose variants fits. -/
def trimLoop (ts cid : String) (max : Nat) :
    List Event → List Event → List Event
  | acc, [] => acc
  | acc, evt :: rest =>
    if payloadSize (acc ++ [evt]) ts cid ≤ max then
      trimLoop ts cid max (acc ++ [evt]) rest
    else if evt.description ≠ "" then
      if payloadSize (acc ++ [shortenEvt evt]) ts cid ≤ max then
        trimLoop ts cid max (acc ++ [shortenEvt evt]) rest
      else if payloadSize (acc ++ [stripEvt evt]) ts cid ≤ max then
        trimLoop ts cid max (acc ++ [stripEvt evt]) rest
      else acc
    else acc

/-- The packer in `handler` (`calendar/index.py:191-256`): build the
full payload; when its serialized size is within the budget keep it
unchanged, otherwise run the trimming loop.  The result is the event
list of the final payload (its other fields — `count = length`,
`timestamp = ts`, `calendar_id = cid` — are determined by it). -/
def pack (events : List Event) (ts cid : String) (max : Nat) :
    List Event :=
  if payloadSize events ts cid ≤ max then events
  else trimLoop ts cid max [] events

/-!
Temporal normalization (`calendar/index.py:86-127`).  Python's
`datetime.fromisoformat` keeps the wall-clock components of the parsed
string (the UTC offset, when present, is stored but does not change
`weekday()`, `date()` or `strftime` output), so a datetime is modelled
by its displayed components: calendar date plus hour and minute.
-/

/-- A proleptic-Gregorian calendar date, as carried by a Python
`datetime.date`. -/
structure Date where
  year : Nat
  month : Nat
  day : Nat
deriving DecidableEq, Repr, Inhabited

/-- The display-relevant components of a Python `datetime`. -/
structure DateTime where
  date : Date
  hour : Nat
  minute : Nat
deriving DecidableEq, Repr, Inhabited

/-- Gregorian leap-year rule (as in Python's `calendar`/`datetime`). -/
def isLeap (y : Nat) : Bool :=
  y % 4 = 0 && (y % 100 ≠ 0 || y % 400 = 0)

/-- Number of days in a month of a given year. -/
def daysInMonth (y m : Nat) : Nat :=
  if m = 2 then (if isLeap y then 29 else 28)
  else if m = 4 ∨ m = 6 ∨ m = 9 ∨ m = 11 then 30
  else 31

/-- Number of days in the years strictly before `y` (proleptic
Gregorian, year 1 is the first year). -/
def daysBeforeYear (y : Nat) : Nat :=
  365 * (y - 1) + (y - 1) / 4 + (y - 1) / 400 - (y - 1) / 100

/-- Number of days in the months of year `y` strictly before month
`m`. -/
def daysBeforeMonth (y m : Nat) : Nat :=
  ((List.range (m - 1)).map (fun i => daysInMonth y (i + 1))).sum

/-- Ordinal day number: 0001-01-01 is day 1 (Python's
`datetime.toordinal`). -/
def ordinal (d : Date) : Nat :=
  daysBeforeYear d.year + daysBeforeMonth d.year d.month + d.day

/-- Day of week with Monday = 0, as Python's `datetime.weekday()`
(0001-01-01 is a Monday). -/
def weekday (d : Date) : Nat :=
  (ordinal d + 6) % 7

/-- Subtraction `dt - timedelta(days=1)` on the date components
(`calendar/index.py:109`). -/
def dateSub1 (d : Date) : Date :=
  if 1 < d.day then { d with day := d.day - 1 }
  else if 1 < d.month then ⟨d.year, d.month - 1, daysInMonth d.year (d.month - 1)⟩
  else ⟨d.year - 1, 12, 31⟩

/-- The Finnish weekday abbreviations `day_names_short`
(`calendar/index.py:91`); the full `day_names` table at line 90 is
defined but never used by the source. -/
def dayNamesShort : List String :=
  ["Ma", "Ti", "Ke", "To", "Pe", "La", "Su"]

/-- Zero-padded two-digit rendering, as in `strftime` fields `%d`,
`%m`, `%H`, `%M` for values below 100. -/
def two (n : Nat) : String :=
  if n < 10 then "0" ++ Nat.repr n else Nat.repr n

/-- Rendering `strftime('%d.%m')`. -/
def ddmm (d : Date) : String :=
  two d.day ++ "." ++ two d.month

/-- Weekday abbreviation `day_names_short[dt.weekday()]`. -/
def wdShort (d : Date) : String :=
  dayNamesShort.getD (weekday d) ""

/-- The two-range label used for multi-day events
(`calendar/index.py:99` and `:113`). -/
def rangeLabel (s e : Date) : String :=
  wdShort s ++ " " ++ ddmm s ++ " - " ++ wdShort e ++ " " ++ ddmm e

/-- The single-day timed label (`calendar/index.py:102`). -/
def timedLabel (s : DateTime) : String :=
  wdShort s.date ++ " " ++ ddmm s.date ++ " " ++ two s.hour ++ ":" ++ two s.minute

/-- The single-day all-day label (`calendar/index.py:116`). -/
def allDayLabel (s : Date) : String :=
  wdShort s ++ " " ++ ddmm s ++ " Koko päivä"

/-- Numeric value of a decimal digit character. -/
def digitVal (c : Char) : Option Nat :=
  if c.isDigit then some (c.toNat - 48) else none

/-- Two decimal digits. -/
def parse2 (a b : Char) : Option Nat := do
  let x ← digitVal a
  let y ← digitVal b
  pure (10 * x + y)

/-- Four decimal digits. -/
def parse4 (a b c d : Char) : Option Nat := do
  let x ← parse2 a b
  let y ← parse2 c d
  pure (100 * x + y)

/-- Parsing `datetime.fromisoformat` of a date-only value
`YYYY-MM-DD` (year 1-9999, valid month and day; anything else raises
`ValueError`, modelled as `none`). -/
def parseDate (s : String) : Option Date :=
  match s.data with
  | [y1, y2, y3, y4, '-', m1, m2, '-', d1, d2] => do
    let y ← parse4 y1 y2 y3 y4
    let m ← parse2 m1 m2
    let d ← parse2 d1 d2
    if 1 ≤ y ∧ 1 ≤ m ∧ m ≤ 12 ∧ 1 ≤ d ∧ d ≤ daysInMonth y m then
      pure ⟨y, m, d⟩
    else none
  | _ => none

/-- Parsing `datetime.fromisoformat` of a timestamp value
`YYYY-MM-DDTHH:MM…`: the date part, the `T` delimiter, hour and minute;
the tail (seconds and UTC offset, always present and well-formed in
Google Calendar timestamps) carries no display-relevant information and
is accepted unchecked. -/
def parseDateTime (s : String) : Option DateTime :=
  match s.data.drop 10 with
  | 'T' :: h1 :: h2 :: ':' :: m1 :: m2 :: _ => do
    let d ← parseDate (String.mk (s.data.take 10))
    let hh ← parse2 h1 h2
    let mm ← parse2 m1 m2
    if hh ≤ 23 ∧ mm ≤ 59 then pure ⟨d, hh, mm⟩ else none
  | _ => none

/-- Parsing `datetime.fromisoformat` on a value that may be either a
date or a timestamp, as called in the all-day branch
(`calendar/index.py:105-106`): a date-only value parses to midnight. -/
def parseISO (s : String) : Option DateTime :=
  if s.data.contains 'T' then parseDateTime s
  else (parseDate s).map (fun d => ⟨d, 0, 0⟩)

/-- The per-event normalization of `fetch_calendar_events`
(`calendar/index.py:93-126`): the time label, the `all_day` flag
(`'T' not in start`, line 125) and the `multiday` flag.  In the timed
branch the source first rewrites a trailing `Z` to `+00:00`
(lines 94-95) purely to make the string parseable; the rewrite touches
no display component, so the parser absorbs it.  In the all-day branch
the exclusive source end date is corrected by one day (line 109) before
the range and the flag are computed.  A value `none` models the
`ValueError` that `fromisoformat` raises on malformed input. -/
def formatEvent (start end_ : String) : Option (String × Bool × Bool) :=
  if start.data.contains 'T' then
    match parseDateTime start, parseDateTime end_ with
    | some sdt, some edt =>
      if sdt.date ≠ edt.date then some (rangeLabel sdt.date edt.date, false, true)
      else some (timedLabel sdt, false, false)
    | _, _ => none
  else
    match parseISO start, parseISO end_ with
    | some sdt, some edt0 =>
      let edt : DateTime := { edt0 with date := dateSub1 edt0.date }
      if sdt.date ≠ edt.date then some (rangeLabel sdt.date edt.date, true, true)
      else some (allDayLabel sdt.date, true, false)
    | _, _ => none

/-- Modelled from the spec (§4.1), for comparison with `formatEvent`:
classification (`allDay` = no `T` in the start value), exclusive-end
correction for all-day values, `multiDay` = differing calendar dates
after correction, then the four-rule priority table for the label. -/
def normalizeSpec (start end_ : String) : Option (String × Bool × Bool) :=
  let allDay := ! start.data.contains 'T'
  let parseVal := fun (v : String) =>
    if allDay then parseISO v else parseDateTime v
  match parseVal start, parseVal end_ with
  | some sdt, some edt0 =>
    let edt : DateTime :=
      if allDay then { edt0 with date := dateSub1 edt0.date } else edt0
    let multiDay : Bool := decide (sdt.date ≠ edt.date)
    let label :=
      if !allDay && !multiDay then timedLabel sdt
      else if !allDay && multiDay then rangeLabel sdt.date edt.date
      else if allDay && !multiDay then allDayLabel sdt.date
      else rangeLabel sdt.date edt.date
    some (label, allDay, multiDay)
  | _, _ => none

/-!
Nearest-slot forecast selection (`weather/index.py:53-108`).  A raw
forecast entry carries a Unix timestamp `dt` in seconds; instants and
durations are modelled in integer seconds.  The temperature, already an
integer after the source's `int(...)` conversion, and the icon and
description strings pass through untouched.
-/

/-- One entry of the OpenWeatherMap `data['list']` series, reduced to
the fields the selector reads. -/
structure Sample where
  dt : Int
  temp : Int
  icon : String
  descr : String
deriving DecidableEq, Repr, Inhabited

/-- One output forecast slot (`weather/index.py:89-95`). -/
structure Slot where
  time : String
  hour : Int
  temp : Int
  icon : String
  descr : String
deriving DecidableEq, Repr, Inhabited

/-- Absolute distance in seconds between a sample's timestamp and the
target instant: `abs((item_time - target_time).total_seconds())`
(`weather/index.py:81`). -/
def tdiff (target : Int) (s : Sample) : Nat :=
  (s.dt - target).natAbs

/-- The inner scan of `fetch_forecast` (`weather/index.py:76-85`):
`closest_item` starts as `None` and `min_diff` as infinity; each item
replaces the best pair exactly when its distance is strictly smaller,
so the first item always enters and ties keep the earlier item. -/
def scanClosest (target : Int) : List Sample → Option (Sample × Nat) →
    Option (Sample × Nat)
  | [], best => best
  | item :: rest, best =>
    let d := tdiff target item
    match best with
    | none => scanClosest target rest (some (item, d))
    | some (b, bd) =>
      if d < bd then scanClosest target rest (some (item, d))
      else scanClosest target rest (some (b, bd))

/-- The sample selected for one target instant, if any. -/
def findClosest (samples : List Sample) (target : Int) : Option Sample :=
  (scanClosest target samples none).map Prod.fst

/-- Python floor division and modulus on integers. -/
def fdiv (a : Int) (b : Int) : Int := Int.ediv a b

/-- Hour of day of a Unix timestamp under UTC, as read from
`datetime.fromtimestamp(dt, tz=timezone.utc).hour`. -/
def hourOfTs (t : Int) : Int := (fdiv t 3600) % 24

/-- Minute of hour of a Unix timestamp under UTC. -/
def minuteOfTs (t : Int) : Int := (fdiv t 60) % 60

/-- The slot built from a selected sample (`weather/index.py:88-95`);
`time` is `strftime('%H:%M')` of the sample's UTC timestamp. -/
def slotOf (s : Sample) : Slot :=
  { time := two (hourOfTs s.dt).toNat ++ ":" ++ two (minuteOfTs s.dt).toNat
    hour := hourOfTs s.dt
    temp := s.temp
    icon := s.icon
    descr := s.descr }

/-- The hard-coded target offsets in hours
(`target_hours_offset = [0, 6, 12, 18]`, `weather/index.py:70`). -/
def targetHoursOffset : List Int := [0, 6, 12, 18]

/-- The offset loop of `fetch_forecast` (`weather/index.py:72-95`): for
each offset, the scan runs over the full series; when it yields an item
(`if closest_item:`) a slot is appended, and when the series is empty it
yields `None` and nothing is appended. -/
def selectSlots (samples : List Sample) (now : Int) : List Slot :=
  targetHoursOffset.foldl
    (fun acc off =>
      match findClosest samples (now + off * 3600) with
      | some item => acc ++ [slotOf item]
      | none => acc)
    []

/-- Outcome of the HTTP fetch-and-parse step of `fetch_forecast`
(`weather/index.py:60-61`): either the parsed sample series or an
exception (`URLError` or any parse error). -/
def fetchForecast (resp : Except Unit (List Sample)) (now : Int) :
    List Slot :=
  match resp with
  | .error _ => []
  | .ok samples => selectSlots samples now

/-!
Heap-level model of the trimming loop, for the frame property: in the
source the loop variable `evt` is a reference into the fetched `events`
list, `test_evt = evt.copy()` (`calendar/index.py:210`) allocates a
fresh dict, and the two description updates (lines 225 and 234) write
to that fresh dict.  Dicts live in a heap of cells addressed by
numbers; the input event list is a list of addresses; allocation
appends a cell, and a write replaces a cell in place.
-/

/-- A heap of event dicts; the address of a cell is its index. -/
structure Heap where
  cells : List Event
deriving Repr

/-- Dereferencing an address. -/
def readH (h : Heap) (r : Nat) : Event :=
  h.cells.getD r default

/-- Allocation of a fresh dict (`evt.copy()`): the new cell's address. -/
def allocH (h : Heap) (e : Event) : Heap × Nat :=
  (⟨h.cells ++ [e]⟩, h.cells.length)

/-- In-place mutation of the dict at an address
(`test_evt['description'] = …`). -/
def writeH (h : Heap) (r : Nat) (e : Event) : Heap :=
  ⟨h.cells.set r e⟩

/-- Serialized size of a trial payload whose event dicts are fetched
from the heap. -/
def sizeH (h : Heap) (refs : List Nat) (ts cid : String) : Nat :=
  payloadSize (refs.map (readH h)) ts cid

/-- The trimming loop (`calendar/index.py:206-247`) at heap level:
`acc` and the remaining input are lists of addresses; each iteration
copies the current event into a fresh cell, degrades that copy in
place, and never writes to any other cell.  Returns the final heap and
the accepted addresses. -/
def trimLoopH (ts cid : String) (max : Nat) :
    Heap → List Nat → List Nat → Heap × List Nat
  | h, acc, [] => (h, acc)
  | h, acc, r :: rest =>
    let evt := readH h r
    let al := allocH h evt
    let h1 := al.1
    let tr := al.2
    if sizeH h1 (acc ++ [tr]) ts cid ≤ max then
      trimLoopH ts cid max h1 (acc ++ [tr]) rest
    else if evt.description ≠ "" then
      let h2 := writeH h1 tr (shortenEvt evt)
      if sizeH h2 (acc ++ [tr]) ts cid ≤ max then
        trimLoopH ts cid max h2 (acc ++ [tr]) rest
      else
        let h3 := writeH h2 tr (stripEvt evt)
        if sizeH h3 (acc ++ [tr]) ts cid ≤ max then
          trimLoopH ts cid max h3 (acc ++ [tr]) rest
        else (h3, acc)
    else (h1, acc)

/-- The packer at heap level (`calendar/index.py:191-256`): reading the
full payload mutates nothing; the trimming loop runs only when it is
oversized. -/
def packH (h : Heap) (refs : List Nat) (ts cid : String) (max : Nat) :
    Heap × List Nat :=
  if sizeH h refs ts cid ≤ max then (h, refs)
  else trimLoopH ts cid max h [] refs

/-!
Specification-level predicates used to state the packer claims, and the
concrete inputs used by witnesses and counterexamples.
-/

/-- An output event is one of the three degradation variants of an
input event; the shortened variant exists only for a non-empty original
description (it is never attempted otherwise). -/
def isVariantOf (v e : Event) : Prop :=
  v = e ∨ (e.description ≠ "" ∧ v = shortenEvt e) ∨ v = stripEvt e

/-- Full first-fit record of one run of the trimming loop:
`VarFitChain ts cid max acc ext rem` says that, starting with accepted
list `acc`, the loop turned the remaining input `rem` into the accepted
extension `ext` — each output event is the first variant of the
corresponding input event whose trial payload fits, and when `ext` ends
before `rem` the stripped variant of the next input event does not
fit. -/
def VarFitChain (ts cid : String) (max : Nat) :
    List Event → List Event → List Event → Prop
  | acc, [], rem =>
    rem = [] ∨ ∃ e rem', rem = e :: rem' ∧
      max < payloadSize (acc ++ [stripEvt e]) ts cid
  | acc, v :: ext, rem =>
    ∃ e rem', rem = e :: rem' ∧
      ((v = e ∧ payloadSize (acc ++ [e]) ts cid ≤ max) ∨
       (e.description ≠ "" ∧ v = shortenEvt e ∧
         max < payloadSize (acc ++ [e]) ts cid ∧
         payloadSize (acc ++ [v]) ts cid ≤ max) ∨
       (e.description ≠ "" ∧ v = stripEvt e ∧
         max < payloadSize (acc ++ [e]) ts cid ∧
         max < payloadSize (acc ++ [shortenEvt e]) ts cid ∧
         payloadSize (acc ++ [v]) ts cid ≤ max)) ∧
      VarFitChain ts cid max (acc ++ [v]) ext rem'

/-- A fixed construction timestamp, standing for the
`datetime.utcnow().isoformat()` value of one invocation. -/
def ts0 : String := "2024-06-10T12:00:00"

/-- A concrete `CALENDAR_ID`. -/
def cid0 : String := "primary"

/-- A concrete formatted event with a 100-character description, as in
the spec's degradation scenario. -/
def demoEvent : Event :=
  { title := "Meeting", time := "Ma 10.06 15:00",
    date := "2024-06-10T15:00:00+03:00", location := "",
    description := String.mk (List.replicate 100 'x'),
    all_day := false, multiday := false }

/-- Ten copies of the 100-character-description event. -/
def demoEvents : List Event := List.replicate 10 demoEvent

/-!
Helper lemmas: serialized-size arithmetic.
-/

theorem length_mk (l : List Char) : (String.mk l).length = l.length := rfl

theorem joinSep_nil : joinSep [] = "" := rfl

theorem joinSep_one (x : String) : joinSep [x] = x := rfl

theorem joinSep_cons2 (x y : String) (xs : List String) :
    joinSep (x :: y :: xs) = x ++ ", " ++ joinSep (y :: xs) := rfl

theorem joinSep_length :
    ∀ l : List String,
      (joinSep l).length = (l.map String.length).sum + 2 * (l.length - 1)
  | [] => rfl
  | [x] => by simp [joinSep_one]
  | x :: y :: xs => by
    have ih := joinSep_length (y :: xs)
    simp only [joinSep_cons2, String.length_append, ih, List.map_cons,
      List.sum_cons, List.length_cons]
    have h2 : (", " : String).length = 2 := rfl
    rw [h2]
    omega

theorem toDigitsCore_len (b : Nat) :
    ∀ (f n : Nat) (ds : List Char),
      ds.length ≤ (Nat.toDigitsCore b f n ds).length := by
  intro f
  induction f with
  | zero => intro n ds; simp [Nat.toDigitsCore]
  | succ f ih =>
    intro n ds
    simp only [Nat.toDigitsCore]
    split
    · simp
    · exact le_trans (by simp) (ih (n / b) (Nat.digitChar (n % b) :: ds))

theorem one_le_repr_len (n : Nat) : 1 ≤ (Nat.repr n).length := by
  show 1 ≤ ((Nat.toDigits 10 n).asString).length
  have : (Nat.toDigits 10 n).asString.length = (Nat.toDigits 10 n).length := rfl
  rw [this]
  show 1 ≤ (Nat.toDigitsCore 10 (n + 1) n []).length
  simp only [Nat.toDigitsCore]
  split
  · simp
  · exact le_trans (by simp) (toDigitsCore_len 10 n (n / 10) [Nat.digitChar (n % 10)])

theorem payloadSize_eq (evs : List Event) (ts cid : String) :
    payloadSize evs ts cid =
      57 + (jsonString ts).length + (jsonString cid).length +
      (Nat.repr evs.length).length +
      (evs.map (fun e => (eventJson e).length)).sum +
      2 * (evs.length - 1) := by
  have l1 : ("\x7b\"events\": [" : String).length = 12 := rfl
  have l2 : ("], \"count\": " : String).length = 12 := rfl
  have l3 : (", \"timestamp\": " : String).length = 15 := rfl
  have l4 : (", \"calendar_id\": " : String).length = 17 := rfl
  have l5 : ("\x7d" : String).length = 1 := rfl
  have hmap : (evs.map eventJson).map String.length =
      evs.map (fun e => (eventJson e).length) := by
    simp [List.map_map, Function.comp]
  simp only [payloadSize, payloadJson, String.length_append, joinSep_length,
    hmap, List.length_map, l1, l2, l3, l4, l5]
  omega

theorem skeleton_le_payloadSize (evs : List Event) (ts cid : String) :
    skeletonSize ts cid ≤ payloadSize evs ts cid := by
  rw [skeletonSize, payloadSize_eq, payloadSize_eq]
  have h0 : (Nat.repr 0).length = 1 := rfl
  have h1 := one_le_repr_len evs.length
  simp only [List.map_nil, List.sum_nil, List.length_nil, h0]
  omega

/-!
Helper lemmas: the trimming loop.
-/

theorem trim_budget (ts cid : String) (max : Nat) :
    ∀ (rem acc : List Event), payloadSize acc ts cid ≤ max →
      payloadSize (trimLoop ts cid max acc rem) ts cid ≤ max := by
  intro rem
  induction rem with
  | nil => intro acc h; simpa [trimLoop] using h
  | cons evt rest ih =>
    intro acc h
    by_cases h1 : payloadSize (acc ++ [evt]) ts cid ≤ max
    · simpa [trimLoop, h1] using ih (acc ++ [evt]) h1
    · by_cases hd : evt.description = ""
      · simp [trimLoop, h1, hd, h]
      · by_cases h2 : payloadSize (acc ++ [shortenEvt evt]) ts cid ≤ max
        · simpa [trimLoop, h1, hd, h2] using ih (acc ++ [shortenEvt evt]) h2
        · by_cases h3 : payloadSize (acc ++ [stripEvt evt]) ts cid ≤ max
          · simpa [trimLoop, h1, hd, h2, h3] using
              ih (acc ++ [stripEvt evt]) h3
          · simp [trimLoop, h1, hd, h2, h3, h]

theorem stripEvt_self (e : Event) (h : e.description = "") : stripEvt e = e := by
  cases e
  simp only [stripEvt] at *
  simp_all

theorem trim_char (ts cid : String) (max : Nat) :
    ∀ (rem acc : List Event), ∃ ext,
      trimLoop ts cid max acc rem = acc ++ ext ∧
      VarFitChain ts cid max acc ext rem := by
  intro rem
  induction rem with
  | nil =>
    intro acc
    exact ⟨[], by simp [trimLoop], Or.inl rfl⟩
  | cons evt rest ih =>
    intro acc
    by_cases h1 : payloadSize (acc ++ [evt]) ts cid ≤ max
    · obtain ⟨ext, hEq, hChain⟩ := ih (acc ++ [evt])
      refine ⟨evt :: ext, ?_, ?_⟩
      · simp only [trimLoop, h1, if_pos, hEq]
        simp
      · exact ⟨evt, rest, rfl, Or.inl ⟨rfl, h1⟩, hChain⟩
    · by_cases hd : evt.description = ""
      · refine ⟨[], by simp [trimLoop, h1, hd], ?_⟩
        refine Or.inr ⟨evt, rest, rfl, ?_⟩
        rw [stripEvt_self evt hd]
        omega
      · by_cases h2 : payloadSize (acc ++ [shortenEvt evt]) ts cid ≤ max
        · obtain ⟨ext, hEq, hChain⟩ := ih (acc ++ [shortenEvt evt])
          refine ⟨shortenEvt evt :: ext, ?_, ?_⟩
          · simp only [trimLoop, h1, if_neg, hd, ne_eq, not_false_iff,
              if_pos, h2, hEq]
            simp [h1, hd, h2]
          · exact ⟨evt, rest, rfl, Or.inr (Or.inl ⟨hd, rfl, by omega, h2⟩),
              hChain⟩
        · by_cases h3 : payloadSize (acc ++ [stripEvt evt]) ts cid ≤ max
          · obtain ⟨ext, hEq, hChain⟩ := ih (acc ++ [stripEvt evt])
            refine ⟨stripEvt evt :: ext, ?_, ?_⟩
            · simp only [trimLoop]
              simp [h1, hd, h2, h3, hEq]
            · exact ⟨evt, rest, rfl,
                Or.inr (Or.inr ⟨hd, rfl, by omega, by omega, h3⟩), hChain⟩
          · refine ⟨[], by simp [trimLoop, h1, hd, h2, h3], ?_⟩
            exact Or.inr ⟨evt, rest, rfl, by omega⟩

theorem chain_length (ts cid : String) (max : Nat) :
    ∀ (ext acc rem : List Event),
      VarFitChain ts cid max acc ext rem → ext.length ≤ rem.length := by
  intro ext
  induction ext with
  | nil => intro acc rem _; simp
  | cons v ext ih =>
    intro acc rem hc
    obtain ⟨e, rem', hrem, _, hchain⟩ := hc
    subst hrem
    have := ih (acc ++ [v]) rem' hchain
    simp only [List.length_cons]
    omega

theorem chain_get (ts cid : String) (max : Nat) :
    ∀ (ext acc rem : List Event),
      VarFitChain ts cid max acc ext rem →
      ∀ (j : Nat) (v e : Event), ext[j]? = some v → rem[j]? = some e →
        (v = e ∨
         (e.description ≠ "" ∧ v = shortenEvt e ∧
           max < payloadSize ((acc ++ ext.take j) ++ [e]) ts cid ∧
           payloadSize ((acc ++ ext.take j) ++ [v]) ts cid ≤ max) ∨
         (e.description ≠ "" ∧ v = stripEvt e ∧
           max < payloadSize ((acc ++ ext.take j) ++ [e]) ts cid ∧
           max < payloadSize ((acc ++ ext.take j) ++ [shortenEvt e]) ts cid ∧
           payloadSize ((acc ++ ext.take j) ++ [v]) ts cid ≤ max)) := by
  intro ext
  induction ext with
  | nil => intro acc rem _ j v e hv; simp at hv
  | cons v0 ext ih =>
    intro acc rem hc j v e hv he
    obtain ⟨e0, rem', hrem, hdisj, hchain⟩ := hc
    subst hrem
    cases j with
    | zero =>
      simp only [List.getElem?_cons_zero, Option.some.injEq] at hv he
      subst hv; subst he
      simp only [List.take_zero, List.append_nil]
      rcases hdisj with ⟨hve, _⟩ | ⟨hd, hve, hf, hfit⟩ | ⟨hd, hve, hf, hsf, hfit⟩
      · exact Or.inl hve
      · exact Or.inr (Or.inl ⟨hd, hve, hf, hfit⟩)
      · exact Or.inr (Or.inr ⟨hd, hve, hf, hsf, hfit⟩)
    | succ j =>
      simp only [List.getElem?_cons_succ] at hv he
      have := ih (acc ++ [v0]) rem' hchain j v e hv he
      simpa [List.append_assoc] using this

theorem chain_stop (ts cid : String) (max : Nat) :
    ∀ (ext acc rem : List Event),
      VarFitChain ts cid max acc ext rem →
      ext.length < rem.length →
      ∃ e, rem[ext.length]? = some e ∧
        max < payloadSize ((acc ++ ext) ++ [stripEvt e]) ts cid := by
  intro ext
  induction ext with
  | nil =>
    intro acc rem hc hlen
    rcases hc with hnil | ⟨e, rem', hrem, hfail⟩
    · subst hnil; simp at hlen
    · subst hrem
      exact ⟨e, by simp, by simpa using hfail⟩
  | cons v ext ih =>
    intro acc rem hc hlen
    obtain ⟨e0, rem', hrem, _, hchain⟩ := hc
    subst hrem
    simp only [List.length_cons] at hlen
    obtain ⟨e, hget, hfail⟩ := ih (acc ++ [v]) rem' hchain (by omega)
    refine ⟨e, ?_, ?_⟩
    · simpa using hget
    · simpa [List.append_assoc] using hfail

theorem shorten_desc_le (e : Event) : (shortenEvt e).description.length ≤ 50 := by
  simp only [shortenEvt, takeChars, length_mk, List.length_take]
  omega

/-!
Claim theorems.
-/

/-- C1: for every input event list, metadata and budget such that the
metadata-only skeleton payload fits within `max`, the payload returned
by the packer serializes to at most `max` bytes. -/
theorem packer_budget_invariant (events : List Event) (ts cid : String)
    (max : Nat) (h : skeletonSize ts cid ≤ max) :
    payloadSize (pack events ts cid max) ts cid ≤ max := by
  by_cases hf : payloadSize events ts cid ≤ max
  · simp [pack, hf]
  · simp only [pack, hf, if_false]
    exact trim_budget ts cid max events [] h

/-- C1 witness: a concrete instantiation of the budget invariant. -/
theorem packer_budget_invariant_witness :
    skeletonSize ts0 cid0 ≤ 300 ∧
    payloadSize (pack [stripEvt demoEvent] ts0 cid0 300) ts0 cid0 ≤ 300 :=
  ⟨by decide, packer_budget_invariant [stripEvt demoEvent] ts0 cid0 300 (by decide)⟩

/-- C2 counterexample: with `max = 50`, smaller than the 88-byte
skeleton for this metadata, the packer does not signal any error
condition — it returns a payload (the empty-event skeleton) whose
serialized size still exceeds the budget, refuting both "signals a
`BudgetExceeded` condition" and "rather than returning a payload".  (No
`BudgetExceeded` signal exists anywhere in the source: `handler` falls
through lines 249-256 and publishes the oversized skeleton.) -/
theorem packer_budget_exceeded_counterexample :
    50 < skeletonSize ts0 cid0 ∧
    pack [stripEvt demoEvent] ts0 cid0 50 = [] ∧
    50 < payloadSize (pack [stripEvt demoEvent] ts0 cid0 50) ts0 cid0 := by
  refine ⟨by decide, by decide, by decide⟩

/-- C2 amended: when the serialized metadata-only skeleton alone
exceeds `max`, the packer accepts zero events and returns the skeleton
payload itself — whose serialized size exceeds `max` — instead of
signalling any `BudgetExceeded` condition to the caller. -/
theorem packer_skeleton_overflow (events : List Event) (ts cid : String)
    (max : Nat) (h : max < skeletonSize ts cid) :
    pack events ts cid max = [] ∧
    max < payloadSize (pack events ts cid max) ts cid := by
  have hfull : ¬ payloadSize events ts cid ≤ max := by
    have := skeleton_le_payloadSize events ts cid
    omega
  have hpack : pack events ts cid max = [] := by
    cases events with
    | nil => simp [pack, hfull, trimLoop]
    | cons e rest =>
      have h1 : ¬ payloadSize [e] ts cid ≤ max := by
        have := skeleton_le_payloadSize [e] ts cid
        omega
      have h2 : ¬ payloadSize [shortenEvt e] ts cid ≤ max := by
        have := skeleton_le_payloadSize [shortenEvt e] ts cid
        omega
      have h3 : ¬ payloadSize [stripEvt e] ts cid ≤ max := by
        have := skeleton_le_payloadSize [stripEvt e] ts cid
        omega
      by_cases hd : e.description = ""
      · simp [pack, hfull, trimLoop, h1, hd]
      · simp [pack, hfull, trimLoop, h1, hd, h2, h3]
  refine ⟨hpack, ?_⟩
  rw [hpack]
  exact h

/-- C2 amended witness: concrete skeleton overflow. -/
theorem packer_skeleton_overflow_witness :
    50 < skeletonSize ts0 cid0 ∧
    pack [demoEvent] ts0 cid0 50 = [] ∧
    50 < payloadSize (pack [demoEvent] ts0 cid0 50) ts0 cid0 :=
  ⟨by decide,
   (packer_skeleton_overflow [demoEvent] ts0 cid0 50 (by decide)).1,
   (packer_skeleton_overflow [demoEvent] ts0 cid0 50 (by decide)).2⟩

/-- C3: the packer's output is index-for-index a degradation variant of
a contiguous prefix of the input (never reordered, never a
non-contiguous subset), and whenever the output is a proper prefix the
very next input event does not fit even in its stripped variant — so
that event and all later ones are excluded. -/
theorem packer_contiguous_order (events : List Event) (ts cid : String)
    (max : Nat) :
    (pack events ts cid max).length ≤ events.length ∧
    (∀ (j : Nat) (v e : Event), (pack events ts cid max)[j]? = some v →
      events[j]? = some e → isVariantOf v e) ∧
    ((pack events ts cid max).length < events.length →
      ∃ e, events[(pack events ts cid max).length]? = some e ∧
        max < payloadSize (pack events ts cid max ++ [stripEvt e]) ts cid) := by
  by_cases hf : payloadSize events ts cid ≤ max
  · have hp : pack events ts cid max = events := by simp [pack, hf]
    rw [hp]
    refine ⟨le_refl _, ?_, ?_⟩
    · intro j v e hv he
      exact Or.inl (Option.some_inj.mp (hv.symm.trans he))
    · intro hlt
      omega
  · have hp : pack events ts cid max = trimLoop ts cid max [] events := by
      simp [pack, hf]
    obtain ⟨ext, hEq, hChain⟩ := trim_char ts cid max events []
    rw [List.nil_append] at hEq
    rw [hp, hEq]
    refine ⟨chain_length ts cid max ext [] events hChain, ?_, ?_⟩
    · intro j v e hv he
      have := chain_get ts cid max ext [] events hChain j v e hv he
      rcases this with h | ⟨hd, hve, _⟩ | ⟨hd, hve, _⟩
      · exact Or.inl h
      · exact Or.inr (Or.inl ⟨hd, hve⟩)
      · exact Or.inr (Or.inr hve)
    · intro hlt
      have := chain_stop ts cid max ext [] events hChain hlt
      simpa using this

/-- C3 witness: concrete instantiation of order preservation. -/
theorem packer_contiguous_order_witness :
    (pack [demoEvent] ts0 cid0 500).length ≤ 1 :=
  (packer_contiguous_order [demoEvent] ts0 cid0 500).1

/-- C5: when the full undegraded payload already fits the budget, the
packer returns it unchanged — identical event list, no truncation. -/
theorem packer_no_pressure (events : List Event) (ts cid : String)
    (max : Nat) (h : payloadSize events ts cid ≤ max) :
    pack events ts cid max = events := by
  simp [pack, h]

/-- C5 witness: a payload of size 343 under a 500-byte budget passes
through unchanged. -/
theorem packer_no_pressure_witness :
    payloadSize [demoEvent] ts0 cid0 ≤ 500 ∧
    pack [demoEvent] ts0 cid0 500 = [demoEvent] :=
  ⟨by decide, packer_no_pressure [demoEvent] ts0 cid0 500 (by decide)⟩

/-!
Concrete sizes for the spec's degradation scenario: ten events with
100-character descriptions under budget 1750.
-/

theorem eventJson_demo_full : (eventJson demoEvent).length = 255 := by decide

theorem eventJson_demo_short :
    (eventJson (shortenEvt demoEvent)).length = 205 := by decide

theorem eventJson_demo_strip :
    (eventJson (stripEvt demoEvent)).length = 155 := by decide

theorem jsonString_ts0_len : (jsonString ts0).length = 21 := by decide

theorem jsonString_cid0_len : (jsonString cid0).length = 9 := by decide

theorem size_demo_full (k : Nat) (h1 : 1 ≤ k) (h9 : k ≤ 9) :
    payloadSize (List.replicate k demoEvent) ts0 cid0 = 86 + 257 * k := by
  have hk : (Nat.repr k).length = 1 := by interval_cases k <;> rfl
  rw [payloadSize_eq]
  simp only [List.map_replicate, eventJson_demo_full, List.sum_replicate,
    smul_eq_mul, jsonString_ts0_len, jsonString_cid0_len,
    List.length_replicate, hk]
  omega

theorem size_demo_short (k : Nat) (h1 : 1 ≤ k) (h9 : k ≤ 9) :
    payloadSize (List.replicate k (shortenEvt demoEvent)) ts0 cid0 =
      86 + 207 * k := by
  have hk : (Nat.repr k).length = 1 := by interval_cases k <;> rfl
  rw [payloadSize_eq]
  simp only [List.map_replicate, eventJson_demo_short, List.sum_replicate,
    smul_eq_mul, jsonString_ts0_len, jsonString_cid0_len,
    List.length_replicate, hk]
  omega

theorem size_demo_full10 :
    payloadSize (List.replicate 10 demoEvent) ts0 cid0 = 2657 := by
  have hk : (Nat.repr 10).length = 2 := rfl
  rw [payloadSize_eq]
  simp only [List.map_replicate, eventJson_demo_full, List.sum_replicate,
    smul_eq_mul, jsonString_ts0_len, jsonString_cid0_len,
    List.length_replicate, hk]

theorem size_demo_6full_1short :
    payloadSize (List.replicate 6 demoEvent ++ [shortenEvt demoEvent])
      ts0 cid0 = 1835 := by
  have hk : (Nat.repr 7).length = 1 := rfl
  rw [payloadSize_eq]
  simp only [List.map_append, List.map_replicate, List.map_cons,
    List.map_nil, List.sum_append, List.sum_replicate, List.sum_cons,
    List.sum_nil, smul_eq_mul, eventJson_demo_full, eventJson_demo_short,
    jsonString_ts0_len, jsonString_cid0_len, List.length_append,
    List.length_replicate, List.length_cons, List.length_nil, hk]
  omega

theorem size_demo_6full_1strip :
    payloadSize (List.replicate 6 demoEvent ++ [stripEvt demoEvent])
      ts0 cid0 = 1785 := by
  have hk : (Nat.repr 7).length = 1 := rfl
  rw [payloadSize_eq]
  simp only [List.map_append, List.map_replicate, List.map_cons,
    List.map_nil, List.sum_append, List.sum_replicate, List.sum_cons,
    List.sum_nil, smul_eq_mul, eventJson_demo_full, eventJson_demo_strip,
    jsonString_ts0_len, jsonString_cid0_len, List.length_append,
    List.length_replicate, List.length_cons, List.length_nil, hk]
  omega

/-!
Single-step equations of the trimming loop, used to run the scenario.
-/

theorem trim_step_accept (ts cid : String) (max : Nat) (acc : List Event)
    (evt : Event) (rest : List Event)
    (h : payloadSize (acc ++ [evt]) ts cid ≤ max) :
    trimLoop ts cid max acc (evt :: rest) =
      trimLoop ts cid max (acc ++ [evt]) rest := by
  simp [trimLoop, h]

theorem trim_step_stop (ts cid : String) (max : Nat) (acc : List Event)
    (evt : Event) (rest : List Event)
    (hd : evt.description ≠ "")
    (h1 : ¬ payloadSize (acc ++ [evt]) ts cid ≤ max)
    (h2 : ¬ payloadSize (acc ++ [shortenEvt evt]) ts cid ≤ max)
    (h3 : ¬ payloadSize (acc ++ [stripEvt evt]) ts cid ≤ max) :
    trimLoop ts cid max acc (evt :: rest) = acc := by
  simp [trimLoop, h1, hd, h2, h3]

/-- In the scenario the greedy loop accepts the first six events at
full fidelity and then stops: events are never revisited for
shortening, so the output is six full-description events. -/
theorem pack_demo_eq :
    pack demoEvents ts0 cid0 1750 = List.replicate 6 demoEvent := by
  have hnofit : ¬ payloadSize demoEvents ts0 cid0 ≤ 1750 := by
    rw [demoEvents, size_demo_full10]
    norm_num
  have c1 : payloadSize (([] : List Event) ++ [demoEvent]) ts0 cid0 ≤ 1750 := by
    rw [show ([] : List Event) ++ [demoEvent] = List.replicate 1 demoEvent from rfl,
        size_demo_full 1 (by norm_num) (by norm_num)]
    norm_num
  have c2 : payloadSize ([demoEvent] ++ [demoEvent]) ts0 cid0 ≤ 1750 := by
    rw [show [demoEvent] ++ [demoEvent] = List.replicate 2 demoEvent from rfl,
        size_demo_full 2 (by norm_num) (by norm_num)]
    norm_num
  have c3 : payloadSize ([demoEvent, demoEvent] ++ [demoEvent]) ts0 cid0 ≤ 1750 := by
    rw [show [demoEvent, demoEvent] ++ [demoEvent] = List.replicate 3 demoEvent from rfl,
        size_demo_full 3 (by norm_num) (by norm_num)]
    norm_num
  have c4 : payloadSize ([demoEvent, demoEvent, demoEvent] ++ [demoEvent]) ts0 cid0 ≤ 1750 := by
    rw [show [demoEvent, demoEvent, demoEvent] ++ [demoEvent] = List.replicate 4 demoEvent from rfl,
        size_demo_full 4 (by norm_num) (by norm_num)]
    norm_num
  have c5 : payloadSize ([demoEvent, demoEvent, demoEvent, demoEvent] ++ [demoEvent]) ts0 cid0 ≤ 1750 := by
    rw [show [demoEvent, demoEvent, demoEvent, demoEvent] ++ [demoEvent] = List.replicate 5 demoEvent from rfl,
        size_demo_full 5 (by norm_num) (by norm_num)]
    norm_num
  have c6 : payloadSize ([demoEvent, demoEvent, demoEvent, demoEvent, demoEvent] ++ [demoEvent]) ts0 cid0 ≤ 1750 := by
    rw [show [demoEvent, demoEvent, demoEvent, demoEvent, demoEvent] ++ [demoEvent] = List.replicate 6 demoEvent from rfl,
        size_demo_full 6 (by norm_num) (by norm_num)]
    norm_num
  have h1 : ¬ payloadSize ([demoEvent, demoEvent, demoEvent, demoEvent, demoEvent, demoEvent] ++ [demoEvent]) ts0 cid0 ≤ 1750 := by
    rw [show [demoEvent, demoEvent, demoEvent, demoEvent, demoEvent, demoEvent] ++ [demoEvent] = List.replicate 7 demoEvent from rfl,
        size_demo_full 7 (by norm_num) (by norm_num)]
    norm_num
  have h2 : ¬ payloadSize ([demoEvent, demoEvent, demoEvent, demoEvent, demoEvent, demoEvent] ++ [shortenEvt demoEvent]) ts0 cid0 ≤ 1750 := by
    rw [show [demoEvent, demoEvent, demoEvent, demoEvent, demoEvent, demoEvent] = List.replicate 6 demoEvent from rfl,
        size_demo_6full_1short]
    norm_num
  have h3 : ¬ payloadSize ([demoEvent, demoEvent, demoEvent, demoEvent, demoEvent, demoEvent] ++ [stripEvt demoEvent]) ts0 cid0 ≤ 1750 := by
    rw [show [demoEvent, demoEvent, demoEvent, demoEvent, demoEvent, demoEvent] = List.replicate 6 demoEvent from rfl,
        size_demo_6full_1strip]
    norm_num
  have hd : demoEvent.description ≠ "" := by decide
  simp only [pack]
  rw [if_neg hnofit]
  rw [show demoEvents = [demoEvent, demoEvent, demoEvent, demoEvent, demoEvent,
        demoEvent, demoEvent, demoEvent, demoEvent, demoEvent] from rfl]
  rw [trim_step_accept ts0 cid0 1750 ([] : List Event) demoEvent
      [demoEvent, demoEvent, demoEvent, demoEvent, demoEvent, demoEvent, demoEvent, demoEvent, demoEvent] c1]
  simp only [List.cons_append, List.nil_append]
  rw [trim_step_accept ts0 cid0 1750 [demoEvent] demoEvent
      [demoEvent, demoEvent, demoEvent, demoEvent, demoEvent, demoEvent, demoEvent, demoEvent] c2]
  simp only [List.cons_append, List.nil_append]
  rw [trim_step_accept ts0 cid0 1750 [demoEvent, demoEvent] demoEvent
      [demoEvent, demoEvent, demoEvent, demoEvent, demoEvent, demoEvent, demoEvent] c3]
  simp only [List.cons_append, List.nil_append]
  rw [trim_step_accept ts0 cid0 1750 [demoEvent, demoEvent, demoEvent] demoEvent
      [demoEvent, demoEvent, demoEvent, demoEvent, demoEvent, demoEvent] c4]
  simp only [List.cons_append, List.nil_append]
  rw [trim_step_accept ts0 cid0 1750 [demoEvent, demoEvent, demoEvent, demoEvent] demoEvent
      [demoEvent, demoEvent, demoEvent, demoEvent, demoEvent] c5]
  simp only [List.cons_append, List.nil_append]
  rw [trim_step_accept ts0 cid0 1750 [demoEvent, demoEvent, demoEvent, demoEvent, demoEvent] demoEvent
      [demoEvent, demoEvent, demoEvent, demoEvent] c6]
  simp only [List.cons_append, List.nil_append]
  rw [trim_step_stop ts0 cid0 1750 [demoEvent, demoEvent, demoEvent, demoEvent, demoEvent, demoEvent] demoEvent
      [demoEvent, demoEvent, demoEvent] hd h1 h2 h3]
  rfl

/-- C4 counterexample: a concrete instance of the spec's scenario — ten
events with 100-character descriptions, budget 1750, where six events
fit with full descriptions (1628 ≤ 1750 < 1885) and eight fit with
shortened descriptions (1742 ≤ 1750 < 1949) — on which the packer does
not return 8 events: already-accepted events keep their full
descriptions, so the seventh event's trials (1885 / 1835 / 1785 bytes)
all overflow and the loop stops at six. -/
theorem packer_scenario_counterexample :
    payloadSize (List.replicate 6 demoEvent) ts0 cid0 ≤ 1750 ∧
    ¬ payloadSize (List.replicate 7 demoEvent) ts0 cid0 ≤ 1750 ∧
    payloadSize (List.replicate 8 (shortenEvt demoEvent)) ts0 cid0 ≤ 1750 ∧
    ¬ payloadSize (List.replicate 9 (shortenEvt demoEvent)) ts0 cid0 ≤ 1750 ∧
    (pack demoEvents ts0 cid0 1750).length ≠ 8 := by
  refine ⟨?_, ?_, ?_, ?_, ?_⟩
  · rw [size_demo_full 6 (by norm_num) (by norm_num)]
    norm_num
  · rw [size_demo_full 7 (by norm_num) (by norm_num)]
    norm_num
  · rw [size_demo_short 8 (by norm_num) (by norm_num)]
    norm_num
  · rw [size_demo_short 9 (by norm_num) (by norm_num)]
    norm_num
  · rw [pack_demo_eq]
    simp

/-- C4 amended: per accepted event the packer tries full, shortened
(only for a non-empty original description, truncated to 50 characters)
and stripped variants in that order, accepting the first whose trial
payload fits; an event not accepted at full has description length at
most 50, and one not accepted at shortened has an empty description.
In the spec's 6-full/8-shortened scenario, however, the packer returns
only the first 6 events with full descriptions — not 8 — because
already-accepted events are never revisited for shortening. -/
theorem packer_degradation_order :
    (∀ (events : List Event) (ts cid : String) (max : Nat) (j : Nat)
       (v e : Event),
       (pack events ts cid max)[j]? = some v → events[j]? = some e →
       (v = e ∨
        (e.description ≠ "" ∧ v = shortenEvt e ∧ v.description.length ≤ 50 ∧
          max < payloadSize ((pack events ts cid max).take j ++ [e]) ts cid ∧
          payloadSize ((pack events ts cid max).take j ++ [v]) ts cid ≤ max) ∨
        (e.description ≠ "" ∧ v = stripEvt e ∧ v.description = "" ∧
          max < payloadSize ((pack events ts cid max).take j ++ [e]) ts cid ∧
          max < payloadSize ((pack events ts cid max).take j ++ [shortenEvt e])
            ts cid ∧
          payloadSize ((pack events ts cid max).take j ++ [v]) ts cid ≤ max))) ∧
    pack demoEvents ts0 cid0 1750 = List.replicate 6 demoEvent := by
  constructor
  · intro events ts cid max j v e hv he
    by_cases hf : payloadSize events ts cid ≤ max
    · have hp : pack events ts cid max = events := by simp [pack, hf]
      rw [hp] at hv
      exact Or.inl (Option.some_inj.mp (hv.symm.trans he))
    · have hp : pack events ts cid max = trimLoop ts cid max [] events := by
        simp [pack, hf]
      obtain ⟨ext, hEq, hChain⟩ := trim_char ts cid max events []
      rw [List.nil_append] at hEq
      rw [hp, hEq] at hv ⊢
      have hg := chain_get ts cid max ext [] events hChain j v e hv he
      simp only [List.nil_append] at hg
      rcases hg with h | ⟨hd, hve, hfail, hfit⟩ | ⟨hd, hve, hfail, hsf, hfit⟩
      · exact Or.inl h
      · refine Or.inr (Or.inl ⟨hd, hve, ?_, hfail, hfit⟩)
        rw [hve]
        exact shorten_desc_le e
      · exact Or.inr (Or.inr ⟨hd, hve, by rw [hve]; simp [stripEvt], hfail,
          hsf, hfit⟩)
  · exact pack_demo_eq

/-- C4 witness: in the concrete scenario the packer's output has
exactly six events. -/
theorem packer_degradation_order_witness :
    (pack demoEvents ts0 cid0 1750).length = 6 := by
  rw [packer_degradation_order.2]
  rfl

/-- C6: for all-day events (date-only values) the exclusive source end
date is reduced by one day before the display range and the `multiday`
flag are computed; concretely `2024-06-10` / `2024-06-12` yields the
display range `Ma 10.06 - Ti 11.06` (corrected end 2024-06-11, a
Tuesday) and `multiday = true`. -/
theorem allday_exclusive_end :
    (∀ (s e : String) (sdt edt0 : DateTime),
       s.data.contains 'T' = false →
       parseISO s = some sdt → parseISO e = some edt0 →
       ((sdt.date ≠ dateSub1 edt0.date →
          formatEvent s e =
            some (rangeLabel sdt.date (dateSub1 edt0.date), true, true)) ∧
        (sdt.date = dateSub1 edt0.date →
          formatEvent s e = some (allDayLabel sdt.date, true, false)))) ∧
    formatEvent "2024-06-10" "2024-06-12" =
      some ("Ma 10.06 - Ti 11.06", true, true) := by
  constructor
  · intro s e sdt edt0 hT hs he
    constructor
    · intro hne
      simp only [formatEvent, hT, Bool.false_eq_true, if_false, hs, he]
      simp [hne]
    · intro heq
      simp only [formatEvent, hT, Bool.false_eq_true, if_false, hs, he]
      simp [heq]
  · decide

/-- C6 witness: the general all-day rule applied to the concrete
exclusive-end example. -/
theorem allday_exclusive_end_witness :
    formatEvent "2024-06-10" "2024-06-12" =
      some (rangeLabel ⟨2024, 6, 10⟩ (dateSub1 ⟨2024, 6, 12⟩), true, true) :=
  (allday_exclusive_end.1 "2024-06-10" "2024-06-12"
    ⟨⟨2024, 6, 10⟩, 0, 0⟩ ⟨⟨2024, 6, 12⟩, 0, 0⟩
    (by decide) (by decide) (by decide)).1 (by decide)

/-- C7: the normalizer agrees with the spec's four-rule priority table
on every input (timed/all-day classification by presence of `T` in the
start value, exclusive-end correction for all-day values, single-date
versus two-range label), and the `all_day` flag it emits is exactly the
absence of a `T` delimiter in the start value. -/
theorem normalizer_rule_table :
    (∀ s e : String, formatEvent s e = normalizeSpec s e) ∧
    (∀ (s e : String) (r : String × Bool × Bool),
       formatEvent s e = some r → r.2.1 = !(s.data.contains 'T')) := by
  have hmain : ∀ s e : String, formatEvent s e = normalizeSpec s e := by
    intro s e
    cases hT : s.data.contains 'T' with
    | true =>
      simp only [formatEvent, normalizeSpec, hT, if_true, Bool.not_true,
        Bool.false_eq_true, if_false]
      cases hps : parseDateTime s with
      | none => rfl
      | some sdt =>
        cases hpe : parseDateTime e with
        | none => rfl
        | some edt =>
          by_cases hdate : sdt.date = edt.date
          · simp [hdate]
          · simp [hdate]
    | false =>
      simp only [formatEvent, normalizeSpec, hT, Bool.false_eq_true,
        if_false, Bool.not_false, if_true]
      cases hps : parseISO s with
      | none => rfl
      | some sdt =>
        cases hpe : parseISO e with
        | none => rfl
        | some edt0 =>
          by_cases hdate : sdt.date = dateSub1 edt0.date
          · simp [hdate]
          · simp [hdate]
  refine ⟨hmain, ?_⟩
  intro s e r hr
  rw [hmain] at hr
  cases hT : s.data.contains 'T' with
  | true =>
    simp only [normalizeSpec, hT, Bool.not_true, Bool.false_eq_true,
      if_false] at hr
    cases hps : parseDateTime s with
    | none => simp [hps] at hr
    | some sdt =>
      cases hpe : parseDateTime e with
      | none => simp [hps, hpe] at hr
      | some edt =>
        simp only [hps, hpe, Option.some_inj] at hr
        rw [← hr]
        rfl
  | false =>
    simp only [normalizeSpec, hT, Bool.not_false, if_true] at hr
    cases hps : parseISO s with
    | none => simp [hps] at hr
    | some sdt =>
      cases hpe : parseISO e with
      | none => simp [hps, hpe] at hr
      | some edt0 =>
        simp only [hps, hpe, Option.some_inj] at hr
        rw [← hr]
        rfl

/-- C7 witness: the `all_day` flag of a concrete timed event is
`false`. -/
theorem normalizer_rule_table_witness :
    ("Ma 10.06 - Ti 11.06", true, true).2.1 =
      !("2024-06-10".data.contains 'T') :=
  normalizer_rule_table.2 "2024-06-10" "2024-06-12" _ (by decide)

/-!
Helper lemmas: the nearest-sample scan.
-/

theorem scan_first_min (target : Int) :
    ∀ (l : List Sample) (b : Sample),
      ∃ s pre post,
        scanClosest target l (some (b, tdiff target b)) =
          some (s, tdiff target s) ∧
        b :: l = pre ++ s :: post ∧
        (∀ x ∈ b :: l, tdiff target s ≤ tdiff target x) ∧
        (∀ x ∈ pre, tdiff target s < tdiff target x) := by
  intro l
  induction l with
  | nil =>
    intro b
    exact ⟨b, [], [], by simp [scanClosest], by simp, by simp, by simp⟩
  | cons x xs ih =>
    intro b
    by_cases hcmp : tdiff target x < tdiff target b
    · obtain ⟨s, pre, post, hscan, hdecomp, hmin, hstrict⟩ := ih x
      refine ⟨s, b :: pre, post, ?_, ?_, ?_, ?_⟩
      · simp only [scanClosest, hcmp, if_pos]
        exact hscan
      · simpa using congrArg (b :: ·) hdecomp
      · intro y hy
        simp only [List.mem_cons] at hy
        rcases hy with rfl | hy
        · have hsx : tdiff target s ≤ tdiff target x := hmin x (by simp)
          omega
        · exact hmin y (by simpa using hy)
      · intro y hy
        simp only [List.mem_cons] at hy
        rcases hy with rfl | hy
        · have hsx : tdiff target s ≤ tdiff target x := hmin x (by simp)
          omega
        · exact hstrict y hy
    · obtain ⟨s, pre, post, hscan, hdecomp, hmin, hstrict⟩ := ih b
      have hscan' : scanClosest target (x :: xs)
          (some (b, tdiff target b)) = some (s, tdiff target s) := by
        simp only [scanClosest, hcmp, if_neg, if_false]
        exact hscan
      cases pre with
      | nil =>
        simp only [List.nil_append, List.cons.injEq] at hdecomp
        obtain ⟨rfl, rfl⟩ := hdecomp
        refine ⟨b, [], x :: xs, hscan', by simp, ?_, by simp⟩
        intro y hy
        simp only [List.mem_cons] at hy
        rcases hy with rfl | rfl | hy
        · exact hmin y (by simp)
        · omega
        · exact hmin y (by simp [hy])
      | cons p pre' =>
        simp only [List.cons_append, List.cons.injEq] at hdecomp
        obtain ⟨rfl, hxs⟩ := hdecomp
        have hbs : tdiff target s < tdiff target b := hstrict b (by simp)
        refine ⟨s, b :: x :: pre', post, hscan', ?_, ?_, ?_⟩
        · simp [hxs]
        · intro y hy
          simp only [List.mem_cons] at hy
          rcases hy with rfl | rfl | hy
          · exact hmin y (by simp)
          · omega
          · exact hmin y (by simp [hy])
        · intro y hy
          simp only [List.mem_cons] at hy
          rcases hy with rfl | rfl | hy
          · exact hbs
          · omega
          · exact hstrict y (by simp [hy])

theorem findClosest_spec (samples : List Sample) (target : Int)
    (h : samples ≠ []) :
    ∃ s pre post,
      findClosest samples target = some s ∧
      samples = pre ++ s :: post ∧
      (∀ x ∈ samples, tdiff target s ≤ tdiff target x) ∧
      (∀ x ∈ pre, tdiff target s < tdiff target x) := by
  cases samples with
  | nil => exact absurd rfl h
  | cons a rest =>
    obtain ⟨s, pre, post, hscan, hdecomp, hmin, hstrict⟩ :=
      scan_first_min target rest a
    refine ⟨s, pre, post, ?_, hdecomp, hmin, hstrict⟩
    simp only [findClosest, scanClosest]
    rw [hscan]
    rfl

theorem findClosest_isSome (samples : List Sample) (target : Int)
    (h : samples ≠ []) : ∃ s, findClosest samples target = some s := by
  obtain ⟨s, _, _, hs, _⟩ := findClosest_spec samples target h
  exact ⟨s, hs⟩

theorem selectSlots_len_aux (samples : List Sample) (now : Int)
    (h : samples ≠ []) :
    ∀ (offs : List Int) (acc : List Slot),
      (offs.foldl (fun acc off =>
        match findClosest samples (now + off * 3600) with
        | some item => acc ++ [slotOf item]
        | none => acc) acc).length = acc.length + offs.length := by
  intro offs
  induction offs with
  | nil => intro acc; simp
  | cons o os ih =>
    intro acc
    obtain ⟨s, hs⟩ := findClosest_isSome samples (now + o * 3600) h
    simp only [List.foldl_cons, hs]
    rw [ih (acc ++ [slotOf s])]
    simp only [List.length_append, List.length_cons, List.length_nil]
    omega

/-- C8: for every non-empty sample series and every target instant, the
scan returns a sample minimizing the absolute timestamp distance, and
on ties the sample occurring first in the series wins: every sample
earlier in the series than the returned one is strictly farther from
the target.  Concretely, with samples at `now+2h` and `now+4h` and
target `now+3h` (both 3600 seconds away), the first-listed sample is
returned. -/
theorem nearest_slot_selection :
    (∀ (samples : List Sample) (target : Int), samples ≠ [] →
      ∃ s pre post,
        findClosest samples target = some s ∧
        samples = pre ++ s :: post ∧
        (∀ x ∈ samples, tdiff target s ≤ tdiff target x) ∧
        (∀ x ∈ pre, tdiff target s < tdiff target x)) ∧
    (∀ (now : Int) (s1 s2 : Sample),
      s1.dt = now + 2 * 3600 → s2.dt = now + 4 * 3600 →
      findClosest [s1, s2] (now + 3 * 3600) = some s1) := by
  refine ⟨findClosest_spec, ?_⟩
  intro now s1 s2 h1 h2
  have hd1 : tdiff (now + 3 * 3600) s1 = 3600 := by
    simp only [tdiff, h1]
    omega
  have hd2 : tdiff (now + 3 * 3600) s2 = 3600 := by
    simp only [tdiff, h2]
    omega
  simp only [findClosest, scanClosest, hd1, hd2]
  norm_num

/-- C8 witness: the concrete equidistant tie resolves to the
first-listed sample. -/
theorem nearest_slot_selection_witness :
    findClosest [⟨7200, 1, "a", "x"⟩, ⟨14400, 2, "b", "y"⟩]
      (0 + 3 * 3600) = some ⟨7200, 1, "a", "x"⟩ :=
  nearest_slot_selection.2 0 ⟨7200, 1, "a", "x"⟩ ⟨14400, 2, "b", "y"⟩
    (by norm_num) (by norm_num)

/-- C9: the forecast path degrades gracefully: a failed fetch yields an
empty forecast list instead of a propagated error; an empty sample
series yields an empty slot sequence; and a non-empty series yields
exactly one slot per target offset. -/
theorem forecast_graceful_degradation :
    (∀ now : Int, fetchForecast (Except.error ()) now = []) ∧
    (∀ now : Int, selectSlots [] now = []) ∧
    (∀ (samples : List Sample) (now : Int), samples ≠ [] →
      (selectSlots samples now).length = targetHoursOffset.length) := by
  refine ⟨fun _ => rfl, fun _ => rfl, ?_⟩
  intro samples now h
  rw [selectSlots, selectSlots_len_aux samples now h targetHoursOffset []]
  rfl

/-- C9 witness: one sample yields four slots; a failed fetch yields
none. -/
theorem forecast_graceful_degradation_witness :
    (selectSlots [⟨0, 0, "", ""⟩] 0).length = targetHoursOffset.length :=
  forecast_graceful_degradation.2.2 [⟨0, 0, "", ""⟩] 0 (by simp)

/-!
Helper lemmas: the heap-level frame property.
-/

theorem readH_alloc (h : Heap) (e : Event) (i : Nat)
    (hi : i < h.cells.length) : readH (allocH h e).1 i = readH h i := by
  simp only [readH, allocH, List.getD_eq_getElem?_getD,
    List.getElem?_append_left hi]

theorem readH_write_ne (h : Heap) (r : Nat) (e : Event) (i : Nat)
    (hne : r ≠ i) : readH (writeH h r e) i = readH h i := by
  simp only [readH, writeH, List.getD_eq_getElem?_getD,
    List.getElem?_set_ne hne]

theorem trimLoopH_frame (ts cid : String) (max : Nat) :
    ∀ (rem : List Nat) (h : Heap) (acc : List Nat) (i : Nat),
      i < h.cells.length →
      readH (trimLoopH ts cid max h acc rem).1 i = readH h i := by
  intro rem
  induction rem with
  | nil =>
    intro h acc i _
    simp [trimLoopH]
  | cons r rest ih =>
    intro h acc i hi
    have htr : (allocH h (readH h r)).2 ≠ i := by
      simp only [allocH]
      omega
    have hra : readH (allocH h (readH h r)).1 i = readH h i :=
      readH_alloc h (readH h r) i hi
    have h1len : i < ((allocH h (readH h r)).1).cells.length := by
      simp [allocH]
      omega
    have h2len : i <
        ((writeH (allocH h (readH h r)).1 (allocH h (readH h r)).2
          (shortenEvt (readH h r))).cells.length) := by
      simp [writeH, allocH]
      omega
    have h3len : i <
        ((writeH (writeH (allocH h (readH h r)).1 (allocH h (readH h r)).2
            (shortenEvt (readH h r))) (allocH h (readH h r)).2
          (stripEvt (readH h r))).cells.length) := by
      simp [writeH, allocH]
      omega
    have hrw2 : readH (writeH (allocH h (readH h r)).1
        (allocH h (readH h r)).2 (shortenEvt (readH h r))) i = readH h i := by
      rw [readH_write_ne _ _ _ _ htr]
      exact hra
    have hrw3 : readH (writeH (writeH (allocH h (readH h r)).1
          (allocH h (readH h r)).2 (shortenEvt (readH h r)))
        (allocH h (readH h r)).2 (stripEvt (readH h r))) i = readH h i := by
      rw [readH_write_ne _ _ _ _ htr, readH_write_ne _ _ _ _ htr]
      exact hra
    simp only [trimLoopH]
    split
    · rw [ih _ _ i h1len]
      exact hra
    · split
      · split
        · rw [ih _ _ i h2len]
          exact hrw2
        · split
          · rw [ih _ _ i h3len]
            exact hrw3
          · exact hrw3
      · exact hra

/-- C10: the packer never mutates its input event list — every
degradation trial writes only to the freshly allocated copy
(`evt.copy()`), so after packing every cell referenced by the input
list still holds its original event, including its full description. -/
theorem packer_input_immutable (h : Heap) (refs : List Nat)
    (ts cid : String) (max : Nat)
    (hrefs : ∀ r ∈ refs, r < h.cells.length) :
    ∀ r ∈ refs, readH (packH h refs ts cid max).1 r = readH h r := by
  intro r hr
  by_cases hfit : sizeH h refs ts cid ≤ max
  · simp [packH, hfit]
  · simp only [packH, hfit, if_false]
    exact trimLoopH_frame ts cid max refs h [] r (hrefs r hr)

/-- C10 witness: a one-event heap packed under a budget that forces a
shortening write is unchanged at the input's address. -/
theorem packer_input_immutable_witness :
    readH (packH ⟨[demoEvent]⟩ [0] ts0 cid0 300).1 0 =
      readH ⟨[demoEvent]⟩ 0 :=
  packer_input_immutable ⟨[demoEvent]⟩ [0] ts0 cid0 300
    (by simp) 0 (by simp)

end EInk
